import Mathlib

/-!
Verification development for the dynamic Leontief planning simulator
(`Code/model.py`, `Code/main.py`).

The numerical core is shallowly embedded over `ℚ` (the Python code computes
with IEEE doubles; exact rational arithmetic is the idealised semantics of the
same formulas).  Vectors of length `n` are functions `Fin n → ℚ`, matrices are
`Fin n → Fin n → ℚ`.  The two sources of randomness in the program — the
structural-matrix sampling in `create_delta_matrix`/`create_capital_intensity_matrix`
and the Gaussian draw inside `update_alpha` — are modelled by passing the drawn
values explicitly as inputs.  The preference-shock update (`update_alpha`) uses
the real exponential and is embedded over `ℝ`.
-/

/-- Length-`n` column vector of rationals (a numpy 1-d array of length `n`). -/
abbrev Vec (n : ℕ) := Fin n → ℚ

/-- An `n × n` matrix of rationals (a numpy 2-d array). -/
abbrev Mat (n : ℕ) := Fin n → Fin n → ℚ

/-- Matrix–vector product `A @ v`. -/
def mulVec {n : ℕ} (A : Mat n) (v : Vec n) : Vec n :=
  fun i => ∑ j, A i j * v j

/-- Inner product `u @ v` of two vectors. -/
def dot {n : ℕ} (u v : Vec n) : ℚ :=
  ∑ i, u i * v i

/-- The identity matrix `np.eye(n)`. -/
def idMat {n : ℕ} : Mat n :=
  fun i j => if i = j then 1 else 0

/-- Matrix transpose `A.T`. -/
def transpose {n : ℕ} (A : Mat n) : Mat n :=
  fun i j => A j i

/-- Diagonal matrix `np.diag(v)`. -/
def diagMat {n : ℕ} (v : Vec n) : Mat n :=
  fun i j => if i = j then v i else 0

/-- `i`-fold application of `A` to `v`: `powApp A i v = A^i v`. -/
def powApp {n : ℕ} (A : Mat n) : ℕ → Vec n → Vec n
  | 0, v => v
  | m + 1, v => mulVec A (powApp A m v)

/-- Loop body of `neumann` (model.py 9–11): each iteration replaces the running
term by `A @ term` and adds it to the accumulator; `neumannLoop A m (x, term)`
performs `m` such iterations. -/
def neumannLoop {n : ℕ} (A : Mat n) : ℕ → Vec n × Vec n → Vec n × Vec n
  | 0, p => p
  | m + 1, p => neumannLoop A m (p.1 + mulVec A p.2, mulVec A p.2)

/-- Truncated Neumann-series solver (model.py 6–12): accumulator and term both
start at `v` and the loop `for _ in range(1, k)` runs `k - 1` times. -/
def neumann {n : ℕ} (A : Mat n) (v : Vec n) (k : ℕ) : Vec n :=
  (neumannLoop A (k - 1) (v, v)).1

theorem powApp_mulVec {n : ℕ} (A : Mat n) (m : ℕ) (v : Vec n) :
    powApp A m (mulVec A v) = powApp A (m + 1) v := by
  induction m with
  | zero => rfl
  | succ m ih => simp only [powApp, ih]

theorem neumannLoop_spec {n : ℕ} (A : Mat n) (m : ℕ) :
    ∀ x term : Vec n,
      neumannLoop A m (x, term) =
        (x + ∑ i in Finset.range m, powApp A (i + 1) term, powApp A m term) := by
  induction m with
  | zero => intro x term; simp [neumannLoop, powApp]
  | succ m ih =>
    intro x term
    rw [neumannLoop, ih (x + mulVec A term) (mulVec A term), Prod.mk.injEq]
    refine ⟨?_, powApp_mulVec A m term⟩
    rw [Finset.sum_range_succ',
      Finset.sum_congr rfl (fun i _ => powApp_mulVec A (i + 1) term)]
    have h1 : powApp A (0 + 1) term = mulVec A term := by
      simp [powApp]
    rw [h1]
    abel

theorem neumann_eq_partial_sum {n : ℕ} (A : Mat n) (v : Vec n) (k : ℕ) (hk : 1 ≤ k) :
    neumann A v k = ∑ i in Finset.range k, powApp A i v := by
  unfold neumann
  rw [neumannLoop_spec]
  obtain ⟨m, rfl⟩ : ∃ m, k = m + 1 := ⟨k - 1, (Nat.succ_pred_eq_of_pos hk).symm⟩
  rw [Finset.sum_range_succ']
  simp only [Nat.add_sub_cancel, powApp]
  abel

/-- AR(1) sliding-window forecaster state (model.py 162–173).  `phi`, `c` start
as `None` (here `none`); `sigmaSq` stores the square of the residual standard
deviation `sigma` (the source stores `sigma` itself via `np.std`; its square
root is irrational, and no embedded operation reads `sigma`, so the square is
kept — `predict` uses only `phi` and `c`). -/
structure AR1Forecaster (n : ℕ) where
  window_size : ℕ
  history : List (Vec n)
  phi : Option (Vec n)
  c : Option (Vec n)
  sigmaSq : Option (Vec n)
  is_fitted : Bool

/-- Fresh forecaster `AR1Forecaster(window_size)` (model.py 167–173). -/
def mkForecaster (n W : ℕ) : AR1Forecaster n :=
  ⟨W, [], none, none, none, false⟩

/-- Method `add_observation` (model.py 175–181): append, then pop the oldest
entry when the window is exceeded. -/
def AR1Forecaster.add_observation {n : ℕ} (f : AR1Forecaster n) (value : Vec n) :
    AR1Forecaster n :=
  let h := f.history ++ [value]
  { f with history := if f.window_size < h.length then h.tail else h }

/-- Slope of the ordinary-least-squares regression of `y` on `x` with
intercept.  The source solves the two-column design `[x, 1]` with
`np.linalg.lstsq`; on a full-column-rank design that solution is this
normal-equations closed form.  `ℚ` division by zero (degenerate design) is 0. -/
def olsPhi (x y : List ℚ) : ℚ :=
  let m : ℚ := x.length
  let Sx := x.sum
  let Sy := y.sum
  let Sxy := ((x.zip y).map fun p => p.1 * p.2).sum
  let Sxx := (x.map fun a => a * a).sum
  (m * Sxy - Sx * Sy) / (m * Sxx - Sx * Sx)

/-- Intercept of the same ordinary-least-squares regression. -/
def olsC (x y : List ℚ) : ℚ :=
  (y.sum - olsPhi x y * x.sum) / (x.length : ℚ)

/-- Squared residual standard deviation with Bessel's correction
(`np.std(residuals, ddof=1)` squared, model.py 201/220). -/
def olsSigmaSq (x y : List ℚ) : ℚ :=
  let phi := olsPhi x y
  let c := olsC x y
  (((x.zip y).map fun p => (p.2 - (phi * p.1 + c)) ^ 2).sum) / ((x.length : ℚ) - 1)

/-- Method `fit` (model.py 183–222): with fewer than 2 history points, mark
unfitted and return; otherwise regress `history[1:]` on `history[:-1]`
componentwise (the univariate and multivariate branches of the source both
perform this per-component regression) and mark fitted. -/
def AR1Forecaster.fit {n : ℕ} (f : AR1Forecaster n) : AR1Forecaster n :=
  if f.history.length < 2 then { f with is_fitted := false }
  else
    let xs := f.history.dropLast
    let ys := f.history.tail
    { f with
      phi := some fun i => olsPhi (xs.map fun v => v i) (ys.map fun v => v i)
      c := some fun i => olsC (xs.map fun v => v i) (ys.map fun v => v i)
      sigmaSq := some fun i => olsSigmaSq (xs.map fun v => v i) (ys.map fun v => v i)
      is_fitted := true }

/-- Method `predict` with the default `n_steps=1` (model.py 224–246), the only
form the simulation loop uses.  The source raises `ValueError` when the model
is not fitted; failure is modelled as `none`. -/
def AR1Forecaster.predict {n : ℕ} (f : AR1Forecaster n) (last_value : Vec n) :
    Option (Vec n) :=
  if f.is_fitted then
    some fun i => (f.phi.getD 0) i * last_value i + (f.c.getD 0) i
  else none

theorem add_observation_window {n : ℕ} (f : AR1Forecaster n) (v : Vec n) :
    (f.add_observation v).window_size = f.window_size := by
  rfl

theorem add_observation_history {n : ℕ} (f : AR1Forecaster n) (v : Vec n)
    (hlen : f.history.length ≤ f.window_size) :
    (f.add_observation v).history =
      (f.history ++ [v]).drop (f.history.length + 1 - f.window_size) := by
  simp only [AR1Forecaster.add_observation, List.length_append, List.length_singleton]
  split
  · next hlt =>
    have h1 : f.history.length + 1 - f.window_size = 1 := by omega
    rw [h1, ← List.drop_one]
  · next hge =>
    have h0 : f.history.length + 1 - f.window_size = 0 := by omega
    rw [h0, List.drop_zero]

theorem add_observation_length {n : ℕ} (f : AR1Forecaster n) (v : Vec n)
    (hlen : f.history.length ≤ f.window_size) :
    (f.add_observation v).history.length = min (f.history.length + 1) f.window_size := by
  rw [add_observation_history f v hlen, List.length_drop]
  simp only [List.length_append, List.length_singleton]
  omega

theorem fit_history {n : ℕ} (f : AR1Forecaster n) :
    (f.fit).history = f.history := by
  unfold AR1Forecaster.fit
  split <;> rfl

theorem fit_window {n : ℕ} (f : AR1Forecaster n) :
    (f.fit).window_size = f.window_size := by
  unfold AR1Forecaster.fit
  split <;> rfl

theorem fit_fitted_of_two_le {n : ℕ} (f : AR1Forecaster n)
    (h : 2 ≤ f.history.length) : (f.fit).is_fitted = true := by
  unfold AR1Forecaster.fit
  rw [if_neg (by omega)]

theorem predict_isSome_of_fitted {n : ℕ} (f : AR1Forecaster n) (v : Vec n)
    (h : f.is_fitted = true) : (f.predict v).isSome = true := by
  unfold AR1Forecaster.predict
  rw [if_pos h]
  rfl

/-- Repeated `add_observation` calls, oldest first (`for v in xs: f.add_observation(v)`). -/
def addObservations {n : ℕ} (f : AR1Forecaster n) (xs : List (Vec n)) : AR1Forecaster n :=
  xs.foldl AR1Forecaster.add_observation f

theorem addObservations_history {n : ℕ} :
    ∀ (xs : List (Vec n)) (f : AR1Forecaster n),
      f.history.length ≤ f.window_size →
      (addObservations f xs).history =
          (f.history ++ xs).drop (f.history.length + xs.length - f.window_size) ∧
        (addObservations f xs).window_size = f.window_size := by
  intro xs
  induction xs with
  | nil =>
    intro f hf
    refine ⟨?_, rfl⟩
    have h0 : f.history.length - f.window_size = 0 := by
      omega
    simp [addObservations, h0]
  | cons v xs ih =>
    intro f hf
    have hw : (f.add_observation v).window_size = f.window_size :=
      add_observation_window f v
    have hl : (f.add_observation v).history.length =
        min (f.history.length + 1) f.window_size :=
      add_observation_length f v hf
    have hle : (f.add_observation v).history.length ≤ (f.add_observation v).window_size := by
      rw [hl, hw]; omega
    have hstep : addObservations f (v :: xs) = addObservations (f.add_observation v) xs := by
      simp [addObservations]
    obtain ⟨ihh, ihw⟩ := ih (f.add_observation v) hle
    refine ⟨?_, by rw [hstep, ihw, hw]⟩
    rw [hstep, ihh, add_observation_history f v hf, hw]
    have hd0 : f.history.length + 1 - f.window_size ≤ (f.history ++ [v]).length := by
      simp only [List.length_append, List.length_singleton]
      omega
    rw [← List.drop_append_of_le_length hd0, List.drop_drop]
    congr 1
    · simp
      omega
    · simp

/-- Length-`n` real vector, used for the preference-shock process, whose update
applies the real exponential. -/
abbrev RVec (n : ℕ) := Fin n → ℝ

/-- Valid probability vector: componentwise nonnegative and summing to 1. -/
def IsProbVec {n : ℕ} (a : RVec n) : Prop :=
  (∀ i, 0 ≤ a i) ∧ ∑ i, a i = 1

/-- Preference-shock update `update_alpha` (model.py 14–22).  The source draws
`eps = np.random.normal(0, sigma, n)` internally; that external randomness is
passed here as the standard-normal draw `z` scaled by `sigma`, so `eps = sigma • z`.
Returns the renormalised share vector and the new shock state. -/
noncomputable def update_alpha {n : ℕ} (alpha_prev shock_prev : RVec n)
    (sigma : ℝ) (z : RVec n) (persist : ℝ) (mu : RVec n) : RVec n × RVec n :=
  let eps : RVec n := fun i => sigma * z i
  let shock : RVec n := fun i => persist * shock_prev i + eps i
  let alpha_tilde : RVec n := fun i => alpha_prev i * Real.exp (mu i + shock i)
  (fun i => alpha_tilde i / ∑ j, alpha_tilde j, shock)

/-- Repeated application of `update_alpha` over a stream of per-period draws:
`update_alpha_iter ... k p` applies the update `k` times starting from the
(share, shock) pair `p`. -/
noncomputable def update_alpha_iter {n : ℕ} (sigma : ℝ) (z : ℕ → RVec n)
    (persist : ℝ) (mu : RVec n) : ℕ → RVec n × RVec n → RVec n × RVec n
  | 0, p => p
  | m + 1, p => update_alpha_iter sigma z persist mu m
      (update_alpha p.1 p.2 sigma (z m) persist mu)

theorem update_alpha_prob {n : ℕ} (alpha_prev shock_prev : RVec n)
    (sigma : ℝ) (z : RVec n) (persist : ℝ) (mu : RVec n)
    (h : IsProbVec alpha_prev) :
    IsProbVec (update_alpha alpha_prev shock_prev sigma z persist mu).1 := by
  obtain ⟨hnn, hsum⟩ := h
  set tilde : RVec n := fun i =>
    alpha_prev i * Real.exp (mu i + (persist * shock_prev i + sigma * z i)) with htilde
  have htnn : ∀ i, 0 ≤ tilde i := fun i =>
    mul_nonneg (hnn i) (Real.exp_pos _).le
  have hex : ∃ j, 0 < alpha_prev j := by
    by_contra hcon
    push_neg at hcon
    have hz : ∀ i ∈ Finset.univ, alpha_prev i = 0 := fun i _ =>
      le_antisymm (hcon i) (hnn i)
    rw [Finset.sum_congr rfl hz] at hsum
    simp at hsum
  obtain ⟨j, hj⟩ := hex
  have hS : 0 < ∑ i, tilde i := by
    have hjpos : 0 < tilde j :=
      mul_pos hj (Real.exp_pos _)
    have hle : tilde j ≤ ∑ i, tilde i :=
      Finset.single_le_sum (fun i _ => htnn i) (Finset.mem_univ j)
    linarith
  have hfst : (update_alpha alpha_prev shock_prev sigma z persist mu).1
      = fun i => tilde i / ∑ m, tilde m := rfl
  constructor
  · intro i
    rw [hfst]
    exact div_nonneg (htnn i) hS.le
  · rw [hfst, ← Finset.sum_div]
    exact div_self hS.ne'

theorem update_alpha_iter_prob {n : ℕ} (sigma : ℝ) (z : ℕ → RVec n)
    (persist : ℝ) (mu : RVec n) :
    ∀ (k : ℕ) (p : RVec n × RVec n), IsProbVec p.1 →
      IsProbVec (update_alpha_iter sigma z persist mu k p).1 := by
  intro k
  induction k with
  | zero => intro p hp; exact hp
  | succ m ih =>
    intro p hp
    exact ih _ (update_alpha_prob p.1 p.2 sigma (z m) persist mu hp)

/-- Configuration entries consumed by the simulation core (config.yaml keys
read in main.py).  `g` is the monthly growth rate: the source computes
`g = (1 + g_a)**(1/12) - 1` (main.py 83); the twelfth root is irrational, so
the embedding takes the resulting monthly rate directly. -/
structure Config where
  k : ℕ
  T_plan : ℕ
  W : ℕ
  tau : ℚ
  b : ℚ
  g : ℚ
  initial_capacity_buffer : ℚ

/-- Loaded economic data consumed by `initialize_simulation` (main.py 71–111). -/
structure EconData (n : ℕ) where
  A : Mat n
  va_per_unit : Vec n
  C_household : Vec n
  G_government : Vec n
  total_output : Vec n

/-- The fifteen time-indexed state series of `initialize_state_arrays`
(model.py 72–89), each mapping a period index to a length-`n` vector. -/
structure States (n : ℕ) where
  X : ℕ → Vec n
  X_max : ℕ → Vec n
  U : ℕ → Vec n
  K : ℕ → Vec n
  K_e : ℕ → Vec n
  I : ℕ → Vec n
  C_p : ℕ → Vec n
  C_0 : ℕ → Vec n
  C : ℕ → Vec n
  F : ℕ → Vec n
  ED : ℕ → Vec n
  K_u : ℕ → Vec n
  AD : ℕ → Vec n
  G : ℕ → Vec n
  F_c : ℕ → Vec n

/-- All-zero state arrays (`np.zeros((T, n))` for each series, model.py 72–89). -/
def initialize_state_arrays (n : ℕ) : States n :=
  ⟨fun _ => 0, fun _ => 0, fun _ => 0, fun _ => 0, fun _ => 0,
   fun _ => 0, fun _ => 0, fun _ => 0, fun _ => 0, fun _ => 0,
   fun _ => 0, fun _ => 0, fun _ => 0, fun _ => 0, fun _ => 0⟩

/-- The simulation state bag returned by `initialize_simulation`
(main.py 120–147). -/
structure Sim (n : ℕ) where
  states : States n
  Delta : Mat n
  B : Mat n
  B_inv : Mat n
  A : Mat n
  P0 : Vec n
  P0_real : Vec n
  wL : Vec n
  alpha : Vec n
  alpha_shock : Vec n
  epsilon : Vec n
  epsilon_measured : Vec n
  mu : Vec n
  g : ℚ
  T : ℕ
  W : ℕ
  k : ℕ
  Delta_C_p_hist : List (Vec n)
  Delta2_C_p_hist : List (Vec n)
  Delta_P_last : Vec n
  Delta_K_e_last : Vec n
  Debt : ℚ
  Y_income_prev : ℚ
  Delta_C_p_forecaster : AR1Forecaster n
  Delta2_C_p_forecaster : AR1Forecaster n

/-- Initialization procedure `initialize_simulation` (main.py 50–147), with
assignments in source order (note `K[0]` is assigned twice: first from
buffered total output to derive `I[0]`, then from `B @ X_max[0]`).  The
structural matrices `Delta`, `B`, `B_inv` and drift vector `mu` are produced
by the randomized factory functions (modelled separately from their uniform
draws) and passed in here.  `Delta_P_last` is the scalar `0` in the source
(main.py 107), which numpy broadcasts over length-`n` vectors; it is embedded
as the zero vector, its broadcast. -/
def initialize_simulation {n : ℕ} (cfg : Config) (data : EconData n)
    (Delta B B_inv : Mat n) (mu : Vec n) : Sim n :=
  let A := data.A
  let wL := data.va_per_unit
  let P0_real := neumann (transpose A) wL cfg.k
  let P0 := P0_real
  let alpha : Vec n := fun i => data.C_household i / ∑ j, data.C_household j
  let epsilon : Vec n := fun _ => -1
  let C_0_0 := data.C_household / P0
  let C0 := C_0_0
  let C_p0 := C0
  let G0 := data.G_government / P0
  let K0a := cfg.initial_capacity_buffer • mulVec B (data.total_output / P0)
  let I0 := mulVec Delta K0a
  let X0 := neumann A (C0 + I0 + G0) cfg.k
  let K_e0 := mulVec B X0
  let X_max0 := cfg.initial_capacity_buffer • X0
  let AD0 := C0 + I0 + G0
  let F0 := AD0
  let F_c0 := mulVec (idMat - A) X_max0
  let K0 := mulVec B X_max0
  let U0 := X_max0 - X0
  let K_u0 := mulVec B U0
  let K1 := mulVec (idMat - Delta) K0 + I0
  let s0 := initialize_state_arrays n
  { states :=
      { s0 with
        C_0 := Function.update s0.C_0 0 C_0_0
        C := Function.update s0.C 0 C0
        C_p := Function.update s0.C_p 0 C_p0
        G := Function.update s0.G 0 G0
        I := Function.update s0.I 0 I0
        X := Function.update s0.X 0 X0
        K_e := Function.update s0.K_e 0 K_e0
        X_max := Function.update s0.X_max 0 X_max0
        AD := Function.update s0.AD 0 AD0
        F := Function.update s0.F 0 F0
        F_c := Function.update s0.F_c 0 F_c0
        K := Function.update (Function.update s0.K 0 K0) 1 K1
        U := Function.update s0.U 0 U0
        K_u := Function.update s0.K_u 0 K_u0 }
    Delta := Delta
    B := B
    B_inv := B_inv
    A := A
    P0 := P0
    P0_real := P0_real
    wL := wL
    alpha := alpha
    alpha_shock := 0
    epsilon := epsilon
    epsilon_measured := epsilon
    mu := mu
    g := cfg.g
    T := cfg.T_plan + cfg.W
    W := cfg.W
    k := cfg.k
    Delta_C_p_hist := []
    Delta2_C_p_hist := []
    Delta_P_last := 0
    Delta_K_e_last := 0
    Debt := 0
    Y_income_prev := ∑ i, data.C_household i
    Delta_C_p_forecaster := mkForecaster n cfg.W
    Delta2_C_p_forecaster := mkForecaster n cfg.W }

/-- Planned-consumption adjustment `Delta_C_p_last` of period `t`
(main.py 184): the carry-over price deviation scaled by measured elasticity,
applied to last period's plan. -/
def stepDeltaCp {n : ℕ} (sim : Sim n) (t : ℕ) : Vec n :=
  -(sim.states.C_p (t - 1)) * (sim.epsilon_measured * sim.Delta_P_last / sim.P0)

/-- `Delta_C_p_hist` after the period-`t` append (main.py 194). -/
def stepHist {n : ℕ} (sim : Sim n) (t : ℕ) : List (Vec n) :=
  sim.Delta_C_p_hist ++ [stepDeltaCp sim t]

/-- `Delta2_C_p_hist` after the period-`t` conditional append of the first
difference (main.py 196–197). -/
def stepHist2 {n : ℕ} (sim : Sim n) (t : ℕ) : List (Vec n) :=
  if 1 < (stepHist sim t).length then
    sim.Delta2_C_p_hist ++ [stepDeltaCp sim t - sim.Delta_C_p_hist.getLastD 0]
  else sim.Delta2_C_p_hist

/-- First-difference forecaster after its period-`t` observation (main.py 199). -/
def stepF1 {n : ℕ} (sim : Sim n) (t : ℕ) : AR1Forecaster n :=
  sim.Delta_C_p_forecaster.add_observation (stepDeltaCp sim t)

/-- Second-difference forecaster after its conditional period-`t` observation
(main.py 200–201). -/
def stepF2 {n : ℕ} (sim : Sim n) (t : ℕ) : AR1Forecaster n :=
  if 0 < (stepHist2 sim t).length then
    sim.Delta2_C_p_forecaster.add_observation ((stepHist2 sim t).getLastD 0)
  else sim.Delta2_C_p_forecaster

/-- Forecast stage of the loop body (main.py 203–216): during warm-up
(fewer than `W` recorded differences) fall back to naive persistence
(repeat the last difference; zero for the second difference); otherwise fit
both forecasters and predict.  A `predict` on an unfitted forecaster raises
in the source; that failure is `none` here.  Returns the two forecasts and
the forecasters in their post-fit states. -/
def stepForecast {n : ℕ} (cfg : Config) (sim : Sim n) (t : ℕ) :
    Option (Vec n × Vec n × AR1Forecaster n × AR1Forecaster n) :=
  if (stepHist sim t).length < cfg.W then
    some (stepDeltaCp sim t, 0, stepF1 sim t, stepF2 sim t)
  else
    let f1 := (stepF1 sim t).fit
    let f2 := (stepF2 sim t).fit
    match f1.predict (stepDeltaCp sim t) with
    | none => none
    | some hat1 =>
      if 2 ≤ (stepHist2 sim t).length then
        match f2.predict ((stepHist2 sim t).getLastD 0) with
        | none => none
        | some hat2 => some (hat1, hat2, f1, f2)
      else some (hat1, 0, f1, f2)

/-- Rationing clamp of the loop body: `Delta_K_u = -np.minimum(Delta_K_e, K_u[t])`
elementwise (main.py 220). -/
def rationingTerm {n : ℕ} (dKe Ku : Vec n) : Vec n :=
  -(fun i => min (dKe i) (Ku i))

/-- State-writing part of the loop body of `run_simulation` (main.py 176–252),
given the period's preference-share update `(alpha', shock')` (produced by
`update_alpha` from an external Gaussian draw) and the forecast stage's
results.  All equations are in source order. -/
def stepCore {n : ℕ} (cfg : Config) (alpha' shock' : Vec n) (sim : Sim n) (t : ℕ)
    (hat1 hat2 : Vec n) (f1 f2 : AR1Forecaster n) : Sim n :=
  let s := sim.states
  let K_e_last := mulVec sim.B (s.X (t - 1))
  let K_e_hat := K_e_last + sim.Delta_K_e_last
  let K_t := mulVec (idMat - sim.Delta) (s.K (t - 1)) + s.I (t - 1)
  let K_u_t := (1 - cfg.b) • K_t - K_e_hat
  let Delta_C_p_last := stepDeltaCp sim t
  let C_p_t := s.C_p (t - 1) + Delta_C_p_last
  let G_t := (1 + sim.g) • s.G (t - 1)
  let Delta_K_e := mulVec sim.B (neumann sim.A
    (hat1 + sim.g • G_t + mulVec sim.B (neumann sim.A (hat2 + sim.g ^ 2 • G_t) cfg.k))
    cfg.k)
  let Delta_K_u := rationingTerm Delta_K_e K_u_t
  let I_t := mulVec sim.Delta K_t + (Delta_K_e + Delta_K_u)
  let F_t := C_p_t + I_t + G_t
  let X_t := neumann sim.A F_t cfg.k
  let Taxes := (1 - cfg.tau) * dot sim.P0 (I_t + G_t)
  let Y_income := dot sim.wL X_t - Taxes
  let C_0_t : Vec n := fun i => alpha' i * Y_income / sim.P0 i
  let ED_t := C_0_t - C_p_t
  let Delta_P := sim.P0 * (-ED_t / (sim.epsilon * C_0_t))
  let P := sim.P0 + Delta_P
  let C_t : Vec n := fun i => alpha' i * Y_income / P i
  let AD_t := C_t + I_t + G_t
  let X_max_t := mulVec sim.B_inv K_t
  let F_c_t := mulVec (idMat - sim.A) X_max_t
  { sim with
    states :=
      { s with
        K := Function.update s.K t K_t
        K_u := Function.update s.K_u t K_u_t
        C_p := Function.update s.C_p t C_p_t
        G := Function.update s.G t G_t
        I := Function.update s.I t I_t
        F := Function.update s.F t F_t
        X := Function.update s.X t X_t
        C_0 := Function.update s.C_0 t C_0_t
        ED := Function.update s.ED t ED_t
        C := Function.update s.C t C_t
        AD := Function.update s.AD t AD_t
        X_max := Function.update s.X_max t X_max_t
        F_c := Function.update s.F_c t F_c_t }
    alpha := alpha'
    alpha_shock := shock'
    Delta_C_p_hist := stepHist sim t
    Delta2_C_p_hist := stepHist2 sim t
    Delta_C_p_forecaster := f1
    Delta2_C_p_forecaster := f2
    Debt := sim.Debt + (dot sim.P0 (G_t + I_t) - Taxes)
    Delta_K_e_last := Delta_K_e
    Delta_P_last := Delta_P }

/-- One full iteration of the loop body of `run_simulation` for period `t`
(main.py 172–252).  `alphaOracle t` supplies the result of `update_alpha` for
period `t` (the update consumes a fresh Gaussian draw; its probability-vector
guarantee is proved above on the `ℝ` embedding `update_alpha`).  The result is
`none` exactly when a `predict` call would raise on an unfitted forecaster. -/
def step {n : ℕ} (cfg : Config) (alphaOracle : ℕ → Vec n × Vec n) (sim : Sim n)
    (t : ℕ) : Option (Sim n) :=
  (stepForecast cfg sim t).map fun q =>
    stepCore cfg (alphaOracle t).1 (alphaOracle t).2 sim t q.1 q.2.1 q.2.2.1 q.2.2.2

/-- The simulation loop `for t in range(1, T)` (main.py 172), run through its
first `m` iterations: `run_simulation cfg o s0 m` is the state after periods
`1 … m`, or `none` if some period raised. -/
def run_simulation {n : ℕ} (cfg : Config) (alphaOracle : ℕ → Vec n × Vec n)
    (s0 : Sim n) : ℕ → Option (Sim n)
  | 0 => some s0
  | m + 1 =>
    (run_simulation cfg alphaOracle s0 m).bind fun s => step cfg alphaOracle s (m + 1)

/-- Value domain for analysing the floating-point behaviour of the unguarded
price-adjustment divisions (main.py 232–252): `some q` is a finite value,
`none` marks a non-finite IEEE double.  Division by an exact zero produces a
non-finite value (`NaN` when the numerator is also zero, `±inf` otherwise);
on the verified path every non-finite value arises as `0/0`, i.e. is a `NaN`,
for which the absorption rules below are exactly the IEEE ones. -/
abbrev NQ := Option ℚ

/-- Addition: any non-finite operand yields a non-finite result (for `NaN`
this is exact IEEE behaviour). -/
def nqAdd : NQ → NQ → NQ
  | some a, some b => some (a + b)
  | _, _ => none

/-- Subtraction with the same non-finite absorption. -/
def nqSub : NQ → NQ → NQ
  | some a, some b => some (a - b)
  | _, _ => none

/-- Multiplication with the same non-finite absorption. -/
def nqMul : NQ → NQ → NQ
  | some a, some b => some (a * b)
  | _, _ => none

/-- Negation of a non-finite value is non-finite. -/
def nqNeg : NQ → NQ
  | some a => some (-a)
  | none => none

/-- Division: a zero divisor yields a non-finite value, and a non-finite
operand yields a non-finite result (exact for `NaN` operands, the only
non-finite operands reached on the verified path). -/
def nqDiv : NQ → NQ → NQ
  | some a, some b => if b = 0 then none else some (a / b)
  | _, _ => none

/-- Lift a finite rational vector into the `NQ` domain. -/
def nq {n : ℕ} (v : Vec n) : Fin n → NQ :=
  fun i => some (v i)

/-- Outputs of the price-adjustment tail of the loop body. -/
structure PriceStepOut (n : ℕ) where
  C_0 : Fin n → NQ
  ED : Fin n → NQ
  Delta_P : Fin n → NQ
  P : Fin n → NQ
  C : Fin n → NQ
  AD : Fin n → NQ
  nextDeltaCp : Fin n → NQ
  nextCp : Fin n → NQ

/-- The price-adjustment tail of the loop body (main.py 232–252) together with
the next period's planned-consumption adjustment (main.py 184–186), evaluated
in the `NQ` domain: consumption target, excess demand, the unguarded division
`Delta_P = P0 * (-ED / (epsilon * C_0))`, realized prices and consumption,
aggregate demand, and the carry-over into period `t+1`'s plan. -/
def priceStepNQ {n : ℕ} (P0 epsilon eps_m alpha C_p_t I_t G_t : Fin n → NQ)
    (Y : NQ) : PriceStepOut n :=
  let C_0 := fun i => nqDiv (nqMul (alpha i) Y) (P0 i)
  let ED := fun i => nqSub (C_0 i) (C_p_t i)
  let Delta_P := fun i => nqMul (P0 i) (nqDiv (nqNeg (ED i)) (nqMul (epsilon i) (C_0 i)))
  let P := fun i => nqAdd (P0 i) (Delta_P i)
  let C := fun i => nqDiv (nqMul (alpha i) Y) (P i)
  let AD := fun i => nqAdd (C i) (nqAdd (I_t i) (G_t i))
  let nextDeltaCp := fun i =>
    nqMul (nqNeg (C_p_t i)) (nqDiv (nqMul (eps_m i) (Delta_P i)) (P0 i))
  let nextCp := fun i => nqAdd (C_p_t i) (nextDeltaCp i)
  ⟨C_0, ED, Delta_P, P, C, AD, nextDeltaCp, nextCp⟩

/-- `create_delta_matrix` (model.py 91–115): uniform annual depreciation rates
are drawn per sector class from the global numpy generator and concatenated;
`draws` is that concatenated vector of `np.random.uniform` outputs.  The rates
are divided by 12 and placed on the diagonal. -/
def create_delta_matrix {n : ℕ} (draws : Vec n) : Mat n :=
  diagMat fun i => draws i / 12

/-- Models main.py 62: `initialize_simulation` executes `np.random.seed(None)`
immediately before sampling the structural matrices, which reseeds the global
generator from OS entropy.  The draw stream the factories then consume is the
fresh entropy, regardless of the caller's prior explicit seeding (and of
`config['random_seed']`, which main.py 63 logs but never uses). -/
def rngStreamAfterInit {n : ℕ} (_callerSeed : Option ℕ) (osEntropy : Vec n) : Vec n :=
  osEntropy

/-- C1: for every matrix `A`, vector `v` and truncation order `k ≥ 1`, the
Neumann solver returns the partial sum `v + A v + A² v + … + A^(k-1) v`, and
with `k = 1` it returns exactly `v`.  (The embedding is a pure function; the
source copies `v` into its accumulators and never writes to `A` or `v`, so the
call does not modify its inputs.) -/
theorem c1_neumann_partial_sum {n : ℕ} (A : Mat n) (v : Vec n) :
    (∀ k, 1 ≤ k → neumann A v k = ∑ i in Finset.range k, powApp A i v) ∧
      neumann A v 1 = v :=
  ⟨fun k hk => neumann_eq_partial_sum A v k hk, rfl⟩

/-- Concrete 1-sector instance used to witness `c1_neumann_partial_sum`. -/
def matC1 : Mat 1 := fun _ _ => 2

/-- Concrete vector for the `c1_neumann_partial_sum` witness. -/
def vecC1 : Vec 1 := fun _ => 3

theorem c1_neumann_partial_sum_witness :
    1 ≤ 3 ∧ neumann matC1 vecC1 3 = ∑ i in Finset.range 3, powApp matC1 i vecC1 :=
  ⟨by decide, (c1_neumann_partial_sum matC1 vecC1).1 3 (by decide)⟩

/-- C7: for every window size `W` and every sequence of `add_observation`
calls on a fresh forecaster, the history equals the most recent
`min (count, W)` observations in arrival order (the oldest entries having been
evicted first), and its length never exceeds `W`. -/
theorem c7_window_bound {n : ℕ} (W : ℕ) (xs : List (Vec n)) :
    (addObservations (mkForecaster n W) xs).history = xs.drop (xs.length - W) ∧
      (addObservations (mkForecaster n W) xs).history.length ≤ W := by
  obtain ⟨hh, hw⟩ := addObservations_history xs (mkForecaster n W)
    (by simp [mkForecaster])
  have hh' : (addObservations (mkForecaster n W) xs).history =
      xs.drop (xs.length - W) := by
    simpa [mkForecaster] using hh
  refine ⟨hh', ?_⟩
  rw [hh', List.length_drop]
  omega

/-- C8: `fit` on fewer than 2 history entries marks the forecaster unfitted
and returns (no error), leaving the stored parameters and history unchanged;
`predict` fails (raises, modelled as `none`) if and only if the forecaster is
not fitted at the time of the call. -/
theorem c8_fit_predict {n : ℕ} (f : AR1Forecaster n) (v : Vec n) :
    (f.history.length < 2 →
      (f.fit).is_fitted = false ∧ (f.fit).phi = f.phi ∧ (f.fit).c = f.c ∧
        (f.fit).sigmaSq = f.sigmaSq ∧ (f.fit).history = f.history) ∧
      (f.predict v = none ↔ f.is_fitted = false) := by
  constructor
  · intro h
    unfold AR1Forecaster.fit
    rw [if_pos h]
    exact ⟨rfl, rfl, rfl, rfl, rfl⟩
  · unfold AR1Forecaster.predict
    cases hf : f.is_fitted <;> simp

/-- Concrete forecaster with a single history entry, used to witness
`c8_fit_predict`. -/
def fC8 : AR1Forecaster 1 :=
  ⟨3, [fun _ => 1], none, none, none, false⟩

theorem c8_fit_predict_witness :
    fC8.history.length < 2 ∧
      ((fC8.fit).is_fitted = false ∧ (fC8.fit).phi = fC8.phi ∧
        (fC8.fit).c = fC8.c ∧ (fC8.fit).sigmaSq = fC8.sigmaSq ∧
        (fC8.fit).history = fC8.history) ∧
      ((fC8.predict fun _ => 0) = none ↔ fC8.is_fitted = false) :=
  ⟨by decide, (c8_fit_predict fC8 fun _ => 0).1 (by decide),
    (c8_fit_predict fC8 fun _ => 0).2⟩

theorem dot_add_swap {n : ℕ} (u a b : Vec n) : dot u (a + b) = dot u (b + a) := by
  rw [add_comm]

theorem stepCore_debt {n : ℕ} (cfg : Config) (a b : Vec n) (sim : Sim n) (t : ℕ)
    (h1 h2 : Vec n) (f1 f2 : AR1Forecaster n) :
    (stepCore cfg a b sim t h1 h2 f1 f2).Debt =
      sim.Debt + (dot sim.P0 ((stepCore cfg a b sim t h1 h2 f1 f2).states.G t +
        (stepCore cfg a b sim t h1 h2 f1 f2).states.I t) -
        (1 - cfg.tau) * dot sim.P0 ((stepCore cfg a b sim t h1 h2 f1 f2).states.I t +
          (stepCore cfg a b sim t h1 h2 f1 f2).states.G t)) := by
  simp only [stepCore, Function.update_same]

theorem stepCore_debt_tau {n : ℕ} (cfg : Config) (a b : Vec n) (sim : Sim n) (t : ℕ)
    (h1 h2 : Vec n) (f1 f2 : AR1Forecaster n) :
    (stepCore cfg a b sim t h1 h2 f1 f2).Debt =
      sim.Debt + cfg.tau * dot sim.P0 ((stepCore cfg a b sim t h1 h2 f1 f2).states.G t +
        (stepCore cfg a b sim t h1 h2 f1 f2).states.I t) := by
  rw [stepCore_debt]
  generalize (stepCore cfg a b sim t h1 h2 f1 f2).states.G t = Gt
  generalize (stepCore cfg a b sim t h1 h2 f1 f2).states.I t = It
  rw [dot_add_swap sim.P0 It Gt]
  ring

theorem stepCore_I_eq {n : ℕ} (cfg : Config) (a b : Vec n) (sim : Sim n) (t : ℕ)
    (h1 h2 : Vec n) (f1 f2 : AR1Forecaster n) :
    (stepCore cfg a b sim t h1 h2 f1 f2).states.I t =
      mulVec sim.Delta ((stepCore cfg a b sim t h1 h2 f1 f2).states.K t) +
        ((stepCore cfg a b sim t h1 h2 f1 f2).Delta_K_e_last +
          rationingTerm (stepCore cfg a b sim t h1 h2 f1 f2).Delta_K_e_last
            ((stepCore cfg a b sim t h1 h2 f1 f2).states.K_u t)) := by
  simp only [stepCore, Function.update_same]

theorem stepCore_C_p_eq {n : ℕ} (cfg : Config) (a b : Vec n) (sim : Sim n) (t : ℕ)
    (h1 h2 : Vec n) (f1 f2 : AR1Forecaster n) :
    (stepCore cfg a b sim t h1 h2 f1 f2).states.C_p t =
      sim.states.C_p (t - 1) + stepDeltaCp sim t := by
  simp only [stepCore, Function.update_same]

/-- C2: in every simulated period `t` the step increments the `Debt`
accumulator by exactly `P0·(G[t]+I[t]) - Taxes`, where
`Taxes = (1-tau)·P0·(I[t]+G[t])` is the inner product computed in the same
period — equivalently by `tau·P0·(G[t]+I[t])` — and `Debt` starts at 0 after
initialization. -/
theorem c2_debt_increment {n : ℕ} (cfg : Config) (o : ℕ → Vec n × Vec n)
    (sim : Sim n) (t : ℕ) (data : EconData n) (Dm Bm Bi : Mat n) (mu : Vec n) :
    ((step cfg o sim t).map Sim.Debt =
        (step cfg o sim t).map (fun s' =>
          sim.Debt + (dot sim.P0 (s'.states.G t + s'.states.I t) -
            (1 - cfg.tau) * dot sim.P0 (s'.states.I t + s'.states.G t))) ∧
      (step cfg o sim t).map Sim.Debt =
        (step cfg o sim t).map (fun s' =>
          sim.Debt + cfg.tau * dot sim.P0 (s'.states.G t + s'.states.I t))) ∧
      (initialize_simulation cfg data Dm Bm Bi mu).Debt = 0 := by
  refine ⟨⟨?_, ?_⟩, rfl⟩
  · cases hq : stepForecast cfg sim t with
    | none => simp [step, hq]
    | some q =>
      simp only [step, hq, Option.map_some']
      exact congrArg some
        (stepCore_debt cfg (o t).1 (o t).2 sim t q.1 q.2.1 q.2.2.1 q.2.2.2)
  · cases hq : stepForecast cfg sim t with
    | none => simp [step, hq]
    | some q =>
      simp only [step, hq, Option.map_some']
      exact congrArg some
        (stepCore_debt_tau cfg (o t).1 (o t).2 sim t q.1 q.2.1 q.2.2.1 q.2.2.2)

/-- C4: in every simulated period the rationing term is
`Delta_K_u = -min(Delta_K_e, K_u[t])` elementwise (visible in `I[t]`'s
decomposition into replacement plus clamped expansion), and for all
rational-valued `Delta_K_e` and `K_u` the clamp satisfies
`K_u + Delta_K_u = max (K_u - Delta_K_e) 0 ≥ 0` componentwise, so the clamp
alone never drives unutilized capital below zero. -/
theorem c4_rationing_clamp {n : ℕ} (dKe Ku : Vec n) (i : Fin n) (cfg : Config)
    (o : ℕ → Vec n × Vec n) (sim : Sim n) (t : ℕ) :
    (Ku i + rationingTerm dKe Ku i = max (Ku i - dKe i) 0 ∧
        0 ≤ Ku i + rationingTerm dKe Ku i) ∧
      (step cfg o sim t).map (fun s' => s'.states.I t) =
        (step cfg o sim t).map (fun s' =>
          mulVec sim.Delta (s'.states.K t) +
            (s'.Delta_K_e_last +
              rationingTerm s'.Delta_K_e_last (s'.states.K_u t))) := by
  constructor
  · rcases le_total (dKe i) (Ku i) with h | h
    · have hr : rationingTerm dKe Ku i = -dKe i := by
        simp [rationingTerm, min_eq_left h]
      rw [hr, max_eq_left (by linarith)]
      exact ⟨by ring, by linarith⟩
    · have hr : rationingTerm dKe Ku i = -Ku i := by
        simp [rationingTerm, min_eq_right h]
      rw [hr, max_eq_right (by linarith)]
      exact ⟨by ring, by linarith⟩
  · cases hq : stepForecast cfg sim t with
    | none => simp [step, hq]
    | some q =>
      simp only [step, hq, Option.map_some']
      exact congrArg some
        (stepCore_I_eq cfg (o t).1 (o t).2 sim t q.1 q.2.1 q.2.2.1 q.2.2.2)

/-- C10: in every run, whatever the configuration, loaded data, structural
matrices and shock draws, the first simulated period's planned-consumption
adjustment is the zero vector — the carry-over `Delta_P_last` is initialized
to (the broadcast of) scalar zero — so `C_p[1] = C_p[0]` exactly. -/
theorem c10_first_period_plan {n : ℕ} (cfg : Config) (data : EconData n)
    (Dm Bm Bi : Mat n) (mu : Vec n) (o : ℕ → Vec n × Vec n) :
    stepDeltaCp (initialize_simulation cfg data Dm Bm Bi mu) 1 = 0 ∧
      (step cfg o (initialize_simulation cfg data Dm Bm Bi mu) 1).map
          (fun s' => s'.states.C_p 1) =
        (step cfg o (initialize_simulation cfg data Dm Bm Bi mu) 1).map
          (fun _ => (initialize_simulation cfg data Dm Bm Bi mu).states.C_p 0) := by
  have hP : (initialize_simulation cfg data Dm Bm Bi mu).Delta_P_last = 0 := rfl
  have hz : stepDeltaCp (initialize_simulation cfg data Dm Bm Bi mu) 1 = 0 := by
    unfold stepDeltaCp
    rw [hP]
    funext i
    simp
  refine ⟨hz, ?_⟩
  cases hq : stepForecast cfg (initialize_simulation cfg data Dm Bm Bi mu) 1 with
  | none => simp [step, hq]
  | some q =>
    simp only [step, hq, Option.map_some']
    refine congrArg some ?_
    rw [stepCore_C_p_eq, hz]
    simp

/-- Bookkeeping invariant of the simulation loop: after completing period `t`
the difference histories have lengths `t` and `t - 1`, and the two forecasters
hold the most recent `min t W` and `min (t - 1) W` of them. -/
def SimInv {n : ℕ} (W : ℕ) (s : Sim n) (t : ℕ) : Prop :=
  s.Delta_C_p_hist.length = t ∧
    s.Delta2_C_p_hist.length = t - 1 ∧
    s.Delta_C_p_forecaster.history.length = min t W ∧
    s.Delta_C_p_forecaster.window_size = W ∧
    s.Delta2_C_p_forecaster.history.length = min (t - 1) W ∧
    s.Delta2_C_p_forecaster.window_size = W

theorem stepCore_book {n : ℕ} (cfg : Config) (a b : Vec n) (sim : Sim n) (u : ℕ)
    (h1 h2 : Vec n) (f1 f2 : AR1Forecaster n) :
    (stepCore cfg a b sim u h1 h2 f1 f2).Delta_C_p_hist = stepHist sim u ∧
      (stepCore cfg a b sim u h1 h2 f1 f2).Delta2_C_p_hist = stepHist2 sim u ∧
      (stepCore cfg a b sim u h1 h2 f1 f2).Delta_C_p_forecaster = f1 ∧
      (stepCore cfg a b sim u h1 h2 f1 f2).Delta2_C_p_forecaster = f2 :=
  ⟨rfl, rfl, rfl, rfl⟩

theorem stepCore_inv {n : ℕ} (cfg : Config) (a b : Vec n) (s : Sim n) (u : ℕ)
    (h1 h2 : Vec n) (g1 g2 : AR1Forecaster n)
    (hH : (stepHist s u).length = u) (hH2 : (stepHist2 s u).length = u - 1)
    (hg1l : g1.history.length = min u cfg.W) (hg1w : g1.window_size = cfg.W)
    (hg2l : g2.history.length = min (u - 1) cfg.W) (hg2w : g2.window_size = cfg.W) :
    SimInv cfg.W (stepCore cfg a b s u h1 h2 g1 g2) u := by
  obtain ⟨b1, b2, b3, b4⟩ := stepCore_book cfg a b s u h1 h2 g1 g2
  exact ⟨by rw [b1, hH], by rw [b2, hH2], by rw [b3, hg1l], by rw [b3, hg1w],
    by rw [b4, hg2l], by rw [b4, hg2w]⟩

theorem step_some_of_inv {n : ℕ} (cfg : Config) (o : ℕ → Vec n × Vec n)
    (s : Sim n) (u : ℕ) (hW : 2 ≤ cfg.W) (hu : 1 ≤ u)
    (hInv : SimInv cfg.W s (u - 1)) :
    ∃ s', step cfg o s u = some s' ∧ SimInv cfg.W s' u := by
  obtain ⟨h1, h2, h3, h4, h5, h6⟩ := hInv
  have hH : (stepHist s u).length = u := by
    simp only [stepHist, List.length_append, List.length_singleton, h1]
    omega
  have hH2 : (stepHist2 s u).length = u - 1 := by
    unfold stepHist2
    by_cases hc : 1 < (stepHist s u).length
    · rw [if_pos hc, hH] at *
      simp only [List.length_append, List.length_singleton, h2]
      rw [hH] at hc
      omega
    · rw [if_neg hc]
      rw [hH] at hc
      omega
  have hF1l : (stepF1 s u).history.length = min u cfg.W := by
    rw [stepF1, add_observation_length _ _ (by rw [h3, h4]; omega), h3, h4]
    omega
  have hF1w : (stepF1 s u).window_size = cfg.W := by
    rw [stepF1, add_observation_window, h4]
  have hF2l : (stepF2 s u).history.length = min (u - 1) cfg.W := by
    unfold stepF2
    by_cases hc : 0 < (stepHist2 s u).length
    · rw [if_pos hc, add_observation_length _ _ (by rw [h5, h6]; omega), h5, h6]
      rw [hH2] at hc
      omega
    · rw [if_neg hc, h5]
      rw [hH2] at hc
      omega
  have hF2w : (stepF2 s u).window_size = cfg.W := by
    unfold stepF2
    by_cases hc : 0 < (stepHist2 s u).length
    · rw [if_pos hc, add_observation_window, h6]
    · rw [if_neg hc]
      exact h6
  by_cases hwarm : (stepHist s u).length < cfg.W
  · refine ⟨stepCore cfg (o u).1 (o u).2 s u (stepDeltaCp s u) 0
      (stepF1 s u) (stepF2 s u), ?_, ?_⟩
    · unfold step stepForecast
      rw [if_pos hwarm]
      rfl
    · exact stepCore_inv cfg (o u).1 (o u).2 s u _ _ _ _ hH hH2 hF1l hF1w hF2l hF2w
  · have hf1fit : ((stepF1 s u).fit).is_fitted = true := by
      apply fit_fitted_of_two_le
      rw [hF1l]
      rw [hH] at hwarm
      omega
    obtain ⟨hat1, hhat1⟩ := Option.isSome_iff_exists.mp
      (predict_isSome_of_fitted _ (stepDeltaCp s u) hf1fit)
    have hf1l : ((stepF1 s u).fit).history.length = min u cfg.W := by
      rw [fit_history]; exact hF1l
    have hf1w : ((stepF1 s u).fit).window_size = cfg.W := by
      rw [fit_window]; exact hF1w
    have hf2l : ((stepF2 s u).fit).history.length = min (u - 1) cfg.W := by
      rw [fit_history]; exact hF2l
    have hf2w : ((stepF2 s u).fit).window_size = cfg.W := by
      rw [fit_window]; exact hF2w
    by_cases hc2 : 2 ≤ (stepHist2 s u).length
    · have hf2fit : ((stepF2 s u).fit).is_fitted = true := by
        apply fit_fitted_of_two_le
        rw [hF2l]
        rw [hH2] at hc2
        omega
      obtain ⟨hat2, hhat2⟩ := Option.isSome_iff_exists.mp
        (predict_isSome_of_fitted _ ((stepHist2 s u).getLastD 0) hf2fit)
      refine ⟨stepCore cfg (o u).1 (o u).2 s u hat1 hat2
        ((stepF1 s u).fit) ((stepF2 s u).fit), ?_, ?_⟩
      · unfold step stepForecast
        rw [if_neg hwarm]
        simp only [hhat1]
        rw [if_pos hc2]
        simp only [hhat2]
        rfl
      · exact stepCore_inv cfg (o u).1 (o u).2 s u _ _ _ _ hH hH2 hf1l hf1w hf2l hf2w
    · refine ⟨stepCore cfg (o u).1 (o u).2 s u hat1 0
        ((stepF1 s u).fit) ((stepF2 s u).fit), ?_, ?_⟩
      · unfold step stepForecast
        rw [if_neg hwarm]
        simp only [hhat1]
        rw [if_neg hc2]
        rfl
      · exact stepCore_inv cfg (o u).1 (o u).2 s u _ _ _ _ hH hH2 hf1l hf1w hf2l hf2w

theorem run_inv {n : ℕ} (cfg : Config) (o : ℕ → Vec n × Vec n) (s0 : Sim n)
    (hW : 2 ≤ cfg.W) (h0 : SimInv cfg.W s0 0) :
    ∀ t, ∃ s, run_simulation cfg o s0 t = some s ∧ SimInv cfg.W s t := by
  intro t
  induction t with
  | zero => exact ⟨s0, rfl, h0⟩
  | succ m ih =>
    obtain ⟨s, hs, hinv⟩ := ih
    obtain ⟨s', hs', hinv'⟩ := step_some_of_inv cfg o s (m + 1) hW (by omega)
      (by simpa using hinv)
    refine ⟨s', ?_, hinv'⟩
    rw [run_simulation, hs]
    simpa using hs'

theorem init_inv {n : ℕ} (cfg : Config) (data : EconData n) (Dm Bm Bi : Mat n)
    (mu : Vec n) :
    SimInv cfg.W (initialize_simulation cfg data Dm Bm Bi mu) 0 := by
  refine ⟨rfl, rfl, ?_, rfl, ?_, rfl⟩ <;>
    · show (mkForecaster n cfg.W).history.length = _
      simp [mkForecaster]

/-- C6: for every run of the simulation loop with window `W ≥ 2`, `predict`
is never invoked on an unfitted forecaster: the warm-up branch covers all
periods with fewer than `W` recorded differences, and once fitting begins both
forecasters have at least 2 history entries when their `predict` is reached.
Since `step` is `none` exactly when a `predict` call would raise (the
not-fitted error branch), every prefix of the loop from an initialized state
evaluates to `some`. -/
theorem c6_predict_always_fitted {n : ℕ} (cfg : Config) (o : ℕ → Vec n × Vec n)
    (data : EconData n) (Dm Bm Bi : Mat n) (mu : Vec n) (hW : 2 ≤ cfg.W) (t : ℕ) :
    (run_simulation cfg o (initialize_simulation cfg data Dm Bm Bi mu) t).isSome
      = true := by
  obtain ⟨s, hs, _⟩ := run_inv cfg o (initialize_simulation cfg data Dm Bm Bi mu)
    hW (init_inv cfg data Dm Bm Bi mu) t
  rw [hs]
  rfl

-- Batteries marks the `Rat` field operations `@[irreducible]`, which blocks
-- `decide` from evaluating concrete rational arithmetic; restore the normal
-- reducibility for the concrete-instance proofs below.
attribute [local semireducible] Rat.mul Rat.inv Rat.add Rat.sub

/-- Concrete 1-sector configuration (k = 1, T_plan = 2, W = 2, tau = b = g = 0,
unit buffer) for the C6 witness. -/
def cfgC6 : Config := ⟨1, 2, 2, 0, 0, 0, 1⟩

/-- Concrete 1-sector data (zero technology matrix, unit vectors) for the C6
witness. -/
def dataC6 : EconData 1 := ⟨fun _ _ => 0, fun _ => 1, fun _ => 1, fun _ => 1, fun _ => 1⟩

/-- Constant preference-share oracle for the C6 witness. -/
def oC6 : ℕ → Vec 1 × Vec 1 := fun _ => (fun _ => 1, fun _ => 0)

theorem c6_predict_always_fitted_witness :
    2 ≤ cfgC6.W ∧
      (run_simulation cfgC6 oC6
        (initialize_simulation cfgC6 dataC6 (fun _ _ => 0) idMat idMat 0) 3).isSome
        = true :=
  ⟨by decide,
    c6_predict_always_fitted cfgC6 oC6 dataC6 (fun _ _ => 0) idMat idMat 0
      (by decide) 3⟩

/-- C3: for every valid probability vector `alpha_prev` (componentwise
nonnegative, summing to 1) and every shock state, noise draw, volatility,
persistence and drift, the preference-shock update returns a vector that is
again nonnegative and sums to 1, and validity is preserved under any number of
repeated applications. -/
theorem c3_alpha_prob {n : ℕ} (alpha_prev shock_prev : RVec n) (sigma : ℝ)
    (z : RVec n) (persist : ℝ) (mu : RVec n) (zs : ℕ → RVec n) (k : ℕ)
    (h : IsProbVec alpha_prev) :
    IsProbVec (update_alpha alpha_prev shock_prev sigma z persist mu).1 ∧
      IsProbVec (update_alpha_iter sigma zs persist mu k (alpha_prev, shock_prev)).1 :=
  ⟨update_alpha_prob alpha_prev shock_prev sigma z persist mu h,
    update_alpha_iter_prob sigma zs persist mu k (alpha_prev, shock_prev) h⟩

theorem c3_alpha_prob_witness :
    IsProbVec (fun _ : Fin 1 => (1 : ℝ)) ∧
      IsProbVec (update_alpha (fun _ : Fin 1 => (1 : ℝ)) 0 1 0 1 0).1 := by
  have h : IsProbVec (fun _ : Fin 1 => (1 : ℝ)) := by
    constructor
    · intro i
      norm_num
    · simp
  exact ⟨h, (c3_alpha_prob (fun _ => 1) 0 1 0 1 0 (fun _ => 0) 2 h).1⟩

/-- Components that are zero stay zero under the preference-shock update, so a
demand-share vector with a zero component (a sector with zero household
consumption) keeps it through every period. -/
theorem update_alpha_zero_component {n : ℕ} (a s : RVec n) (sigma : ℝ)
    (z : RVec n) (p : ℝ) (mu : RVec n) (i : Fin n) (h : a i = 0) :
    (update_alpha a s sigma z p mu).1 i = 0 := by
  show a i * Real.exp _ / _ = 0
  rw [h, zero_mul, zero_div]

/-- Concrete 2-sector configuration for C5 (k = 2, W = 2, tau = b = g = 0). -/
def cfgC5 : Config := ⟨2, 2, 2, 0, 0, 0, 1⟩

/-- Concrete 2-sector data where sector 2's household consumption is zero, so
its demand share is zero and its consumption target `C_0` hits exactly zero. -/
def dataC5 : EconData 2 :=
  ⟨fun _ _ => 0, fun _ => 1, fun i => if i = 0 then 1 else 0, fun _ => 1, fun _ => 1⟩

/-- Preference-share oracle for C5: the share vector `(1, 0)`, a fixed point
of `update_alpha` (see `update_alpha_zero_component`). -/
def oC5 : ℕ → Vec 2 × Vec 2 := fun _ => (fun i => if i = 0 then 1 else 0, fun _ => 0)

set_option maxRecDepth 8000 in
/-- C5: the price-adjustment step computes
`Delta_P = P0 ⊙ (-ED[t] / (epsilon ⊙ C_0[t]))` with no guard on the divisor.
In the reachable state below (period 1, sector 2 — reachable since a zero
household-consumption share stays zero), `C_0[1]` has a zero component with a
zero numerator `-ED[1]`: an IEEE `0/0`, i.e. `NaN`.  Evaluating the same
unguarded formulas (main.py 232–252 and the next period's 184–186) in the
non-finite-marker domain shows the non-finite value propagating into
`Delta_P`, `P`, `C[t]`, `AD[t]` and the next period's planned consumption,
with no recovery or error raised. -/
theorem c5_unguarded_price_division :
    (run_simulation cfgC5 oC5
          (initialize_simulation cfgC5 dataC5 (fun _ _ => 0) idMat idMat 0) 1).map
        (fun s => (s.states.C_0 1 1, s.states.ED 1 1)) = some (0, 0) ∧
      (run_simulation cfgC5 oC5
          (initialize_simulation cfgC5 dataC5 (fun _ _ => 0) idMat idMat 0) 1).map
        (fun s =>
          let Y : NQ := some (dot s.wL (s.states.X 1) -
            (1 - cfgC5.tau) * dot s.P0 (s.states.I 1 + s.states.G 1))
          let out := priceStepNQ (nq s.P0) (nq s.epsilon) (nq s.epsilon_measured)
            (nq s.alpha) (nq (s.states.C_p 1)) (nq (s.states.I 1))
            (nq (s.states.G 1)) Y
          (out.Delta_P 1, out.P 1, out.C 1, out.AD 1, out.nextCp 1)) =
        some (none, none, none, none, none) := by
  constructor <;> decide

/-- C9 evidence: even when the caller seeds the global generator explicitly,
`initialize_simulation` executes `np.random.seed(None)` (main.py 62) before
sampling, so the structural matrices depend on fresh OS entropy: two
initializations with identical configuration, data and caller seed but
different entropy yield different depreciation matrices, hence diverging state
series.  The claimed reproducibility of seeded runs fails on the code. -/
theorem c9_seed_ignored :
    create_delta_matrix (rngStreamAfterInit (some 42) (fun _ : Fin 1 => 12)) ≠
      create_delta_matrix (rngStreamAfterInit (some 42) (fun _ : Fin 1 => 24)) := by
  decide
